import Mathlib

/-!
Verification of the BLS macroeconomic data pipeline.

Shallow embedding of the four pipeline scripts:
  collect_data.py      (request_json / parse_json / initial_data / update_data / collect_data)
  update_raw_data.py   (fetch_bls_data / parse_and_process / main)
  initial_raw_data.py  (fetch_bls_chunk / parse_bls_response / main)
  process_data.py      (process_macro_data)

Conventions of the embedding:
* numeric cell values are `Option ℚ`; `none` models the float NaN produced by
  `pd.to_numeric(..., errors = "coerce")` and propagated by arithmetic;
* a calendar month `YYYY-MM-01` is encoded as the natural number `YYYY * 100 + MM`;
  for the 4-digit years handled by the pipeline the lexicographic order on the
  zero-padded date strings (used by the pandas pivot index) coincides with the
  numeric order on this encoding;
* fallible pandas operations are embedded in `Except String`, with the error
  string naming the Python exception being modelled;
* a JSON payload is `Option (Option (List SeriesBlock))`: `none` is Python
  `None`, `some none` an object without the `Results` key (or the empty
  object), `some (some bs)` an object whose `Results.series` list is `bs`.
-/

set_option maxHeartbeats 1000000

namespace BLS

attribute [local semireducible] Rat.mul Rat.inv Rat.add Rat.sub Rat.ofScientific

/-! ### Numeric helpers -/

/-- Round a rational to the nearest integer, ties to even: the rounding used by
Python's builtin `round` and by numpy/pandas `round`. -/
def roundHalfEven (x : ℚ) : ℤ :=
  let f : ℤ := ⌊x⌋
  let r : ℚ := x - f
  if r < 1 / 2 then f
  else if 1 / 2 < r then f + 1
  else if f % 2 = 0 then f else f + 1

/-- Round to 2 decimal places: pandas `Series.round(2)` on a single value. -/
def round2q (x : ℚ) : ℚ := (roundHalfEven (x * 100) : ℚ) / 100

/-- Round to 0 decimal places: Python `round(...)` with no digit count. -/
def round0q (x : ℚ) : ℚ := (roundHalfEven x : ℚ)

/-- Multiplication of float-like values: `none` models NaN and propagates. -/
def omul (a b : Option ℚ) : Option ℚ :=
  match a, b with
  | some x, some y => some (x * y)
  | _, _ => none

/-- Division of float-like values: `none` models NaN and propagates.  A zero
denominator yields an infinity in floats; claims touching division carry a
nonzero-CPI hypothesis, so the rational quotient is faithful there. -/
def odiv (a b : Option ℚ) : Option ℚ :=
  match a, b with
  | some x, some y => some (x / y)
  | _, _ => none

/-! ### Decimal string parsing, modelling numeric coercion of cell strings -/

/-- Value of a decimal digit character. -/
def digitVal (c : Char) : Nat := c.toNat - 48

/-- Read a nonempty all-digit character list as a natural number. -/
def digitsToNat (l : List Char) : Option Nat :=
  if !l.isEmpty && l.all (fun c => c.isDigit) then
    some (l.foldl (fun acc c => acc * 10 + digitVal c) 0)
  else none

/-- Split a character list at the first dot, if any. -/
def splitFirstDot : List Char → List Char × Option (List Char)
  | [] => ([], none)
  | c :: rest =>
    if c = '.' then ([], some rest)
    else
      let p := splitFirstDot rest
      (c :: p.1, p.2)

/-- Read an unsigned decimal literal (digits with at most one dot). -/
def parseUnsignedDec (l : List Char) : Option ℚ :=
  match splitFirstDot l with
  | (ip, none) => (digitsToNat ip).map (fun n => (n : ℚ))
  | (ip, some fp) =>
    match digitsToNat ip, digitsToNat fp with
    | some n, some f => some ((n : ℚ) + (f : ℚ) / ((10 : ℚ) ^ fp.length))
    | _, _ => none

/-- Numeric coercion of a cell string: `pd.to_numeric(..., errors = "coerce")`
on the decimal literals the BLS API emits; an unparsable string coerces to NaN
(`none`). -/
def parseDecimal (s : String) : Option ℚ :=
  match s.data with
  | '-' :: rest => (parseUnsignedDec rest).map (fun q => -q)
  | l => parseUnsignedDec l

/-- Numeric coercion of a pivoted cell (`none` is an absent cell, i.e. NaN). -/
def toNumericCell (c : Option String) : Option ℚ := c.bind parseDecimal

/-! ### The raw API payload -/

/-- One observation of a series block: the `{year, period, value}` items of the
API response. -/
structure RawItem where
  year : Nat
  period : String
  value : String
deriving DecidableEq

/-- One per-series block of the API response: `{seriesID, data}`. -/
structure SeriesBlock where
  seriesID : String
  data : List RawItem
deriving DecidableEq

/-- A JSON payload: `none` is Python `None`, `some none` an object lacking the
`Results` key (or the empty object), `some (some bs)` an object whose
`Results.series` list is `bs`. -/
abbrev Payload := Option (Option (List SeriesBlock))

/-- The fixed series-id to display-name mapping, identical in
collect_data.py (`series_keys`), update_raw_data.py and initial_raw_data.py
(`SERIES_MAPPING`). -/
def seriesKeys : List (String × String) :=
  [("LNS14000000", "Unemployment Rate"),
   ("CES0000000001", "Employment Level"),
   ("CUUR0000SA0", "CPI"),
   ("CES0500000003", "Hourly Earnings"),
   ("CES0500000002", "Hours Worked")]

/-- Python `SERIES_MAPPING.get(series_id, series_id)`: unknown identifiers pass
through verbatim. -/
def colNameOf (id : String) : String :=
  ((seriesKeys.find? (fun kv => kv.1 == id)).map (fun kv => kv.2)).getD id

/-- The period filter at update_raw_data.py:45 and initial_raw_data.py:56:
Python `'M' in item['period'] and item['period'] != 'M13'`. -/
def acceptPeriod (p : String) : Bool :=
  p.data.contains 'M' && p != "M13"

/-- Python `int(period.replace('M', ''))`: delete every `M` character and read
the remainder as a decimal integer; `none` models the `ValueError` Python
raises on a non-numeric remainder. -/
def periodMonth (p : String) : Option Nat :=
  digitsToNat (p.data.filter (fun c => c ≠ 'M'))

/-- Encode the date string `f"{year}-{month:02d}-01"` as `year * 100 + month`. -/
def mkDate (y m : Nat) : Nat := y * 100 + m

/-- One long-format record, `{'Date': ..., 'Series': ..., 'Value': ...}`. -/
structure Record where
  date : Nat
  series : String
  value : String
deriving DecidableEq

/-- The record an item contributes, given the display name of its series
(month read from the period; the `getD` default is never reached on the
success path of the parsers, which require `periodMonth` to succeed). -/
def mkRecord (col : String) (it : RawItem) : Record :=
  ⟨mkDate it.year ((periodMonth it.period).getD 0), col, it.value⟩

/-! ### Record building (the inner loops of the three parsers) -/

/-- Inner loop of update_raw_data.py `parse_and_process` (lines 44-47) and of
initial_raw_data.py `parse_bls_response` (lines 50-59), which are identical:
keep the items passing the period filter; an accepted period whose digits do
not parse makes Python's `int` raise, modelled as `.error`. -/
def filteredRecords (col : String) : List RawItem → Except String (List Record)
  | [] => .ok []
  | it :: rest =>
    if acceptPeriod it.period then
      match periodMonth it.period with
      | none => .error ("ValueError: int")
      | some m => do
        let rs ← filteredRecords col rest
        .ok (⟨mkDate it.year m, col, it.value⟩ :: rs)
    else filteredRecords col rest

/-- Outer loop over the series blocks for the two filtering parsers. -/
def parseRecords : List SeriesBlock → Except String (List Record)
  | [] => .ok []
  | b :: bs => do
    let r1 ← filteredRecords (colNameOf b.seriesID) b.data
    let r2 ← parseRecords bs
    .ok (r1 ++ r2)

/-- Inner loop of collect_data.py `parse_json` (lines 46-52): no period filter
at all, every item reaches `int(period.replace('M', ''))`. -/
def rawRecords (col : String) : List RawItem → Except String (List Record)
  | [] => .ok []
  | it :: rest =>
    match periodMonth it.period with
    | none => .error ("ValueError: int")
    | some m => do
      let rs ← rawRecords col rest
      .ok (⟨mkDate it.year m, col, it.value⟩ :: rs)

/-- Outer loop over the series blocks of collect_data.py `parse_json`. -/
def jsonRecords : List SeriesBlock → Except String (List Record)
  | [] => .ok []
  | b :: bs => do
    let r1 ← rawRecords (colNameOf b.seriesID) b.data
    let r2 ← jsonRecords bs
    .ok (r1 ++ r2)

/-! ### Pure (non-failing) forms of the record builders, used in proofs -/

/-- Value of `filteredRecords` on its success path. -/
def pureFilteredRecords (col : String) (items : List RawItem) : List Record :=
  (items.filter (fun it => acceptPeriod it.period)).map (fun it => mkRecord col it)

/-- Value of `parseRecords` on its success path. -/
def pureRecords (bs : List SeriesBlock) : List Record :=
  bs.flatMap (fun b => pureFilteredRecords (colNameOf b.seriesID) b.data)

/-- Value of `rawRecords` on its success path. -/
def pureRawRecords (col : String) (items : List RawItem) : List Record :=
  items.map (fun it => mkRecord col it)

/-- Value of `jsonRecords` on its success path. -/
def pureJsonRecords (bs : List SeriesBlock) : List Record :=
  bs.flatMap (fun b => pureRawRecords (colNameOf b.seriesID) b.data)

/-! ### The pivot (pandas `DataFrame.pivot` + `reset_index`) -/

/-- Sort a list after removing duplicates (pandas pivot sorts its index and its
columns). -/
def sortedDedup {α : Type} [LinearOrder α] [DecidableEq α] (l : List α) : List α :=
  List.insertionSort (fun a b => a ≤ b) l.dedup

/-- Code-point lexicographic order on character lists, the order Python and
pandas use on strings (written structurally so that concrete pivots
evaluate). -/
def charListLe : List Char → List Char → Bool
  | [], _ => true
  | _ :: _, [] => false
  | a :: as, b :: bs =>
    if a.toNat < b.toNat then true
    else if b.toNat < a.toNat then false
    else charListLe as bs

/-- Order on column labels. -/
def strLe (a b : String) : Bool := charListLe a.data b.data

/-- Sorted distinct column labels. -/
def sortedDedupStr (l : List String) : List String :=
  List.insertionSort (fun a b => strLe a b = true) l.dedup

/-- The sorted distinct dates of a record list: the pivot index. -/
def recordDates (rs : List Record) : List Nat :=
  sortedDedup (rs.map (fun r => r.date))

/-- The sorted distinct series names of a record list: the pivot columns. -/
def recordCols (rs : List Record) : List String :=
  sortedDedupStr (rs.map (fun r => r.series))

/-- The pivot keys of a record list. -/
def recordKeys (rs : List Record) : List (Nat × String) :=
  rs.map (fun r => (r.date, r.series))

/-- The cell of the pivoted frame at a date and series name: `none` is the NaN
of a missing combination. -/
def cellVal (rs : List Record) (d : Nat) (c : String) : Option String :=
  (rs.find? (fun r => r.date == d && r.series == c)).map (fun r => r.value)

/-- A wide frame: the column names (after `Date`) and, per row, the date and
the cells in column order. -/
structure WTable where
  cols : List String
  rows : List (Nat × List (Option String))
deriving DecidableEq

/-- pandas `pivot(index = 'Date', columns = 'Series', values = 'Value')`
followed by `reset_index`: one row per distinct date (sorted), one column per
distinct series name (sorted), NaN for missing cells; raises on duplicate
`(Date, Series)` pairs. -/
def pivotRecords (rs : List Record) : Except String WTable :=
  if (recordKeys rs).Nodup then
    .ok ⟨recordCols rs,
         (recordDates rs).map (fun d => (d, (recordCols rs).map (fun c => cellVal rs d c)))⟩
  else .error ("pivot: Index contains duplicate entries")

/-! ### update_raw_data.py and initial_raw_data.py parsers -/

/-- update_raw_data.py `parse_and_process` (lines 36-55): guard for null input
or a missing `Results` key, build the filtered records, empty records give the
empty frame, otherwise pivot. -/
def parseAndProcess (j : Payload) : Except String WTable :=
  match j with
  | none => .ok ⟨[], []⟩
  | some none => .ok ⟨[], []⟩
  | some (some blocks) => do
    let rs ← parseRecords blocks
    if rs.isEmpty then .ok ⟨[], []⟩
    else pivotRecords rs

/-- initial_raw_data.py `parse_bls_response` (lines 41-60): same guard, returns
the (long-format) record list. -/
def parseBlsResponse (j : Payload) : Except String (List Record) :=
  match j with
  | none => .ok []
  | some none => .ok []
  | some (some blocks) => parseRecords blocks

/-- Modelled from the spec: the external BLS API over a fixed underlying
dataset `ds` (the network transport itself, `requests.post`, is outside the
repository).  For the inclusive year range `[s, e]` the API answers with every
series block restricted to its observations whose year lies in the range -
claim C8's "given identical underlying data". -/
def fetchModel (ds : List SeriesBlock) (s e : Nat) : Payload :=
  some (some (ds.map (fun b =>
    ⟨b.seriesID, b.data.filter (fun it => decide (s ≤ it.year ∧ it.year ≤ e))⟩)))

/-- The chunk loop of initial_raw_data.py `main` (lines 69-73):
`for y in range(start, end + 1, 10)` fetch the window `[y, min (y + 9) end]`,
parse it, and extend the accumulated record list. -/
def chunkRecords (y e : Nat) (ds : List SeriesBlock) : Except String (List Record) :=
  if _h1 : y ≤ e then do
    let rs ← parseBlsResponse (fetchModel ds y (min (y + 9) e))
    let rest ← chunkRecords (y + 10) e ds
    .ok (rs ++ rest)
  else .ok []
termination_by e + 1 - y
decreasing_by omega

/-- Value of one fetched-and-parsed window on the success path. -/
def pureFetchRecords (ds : List SeriesBlock) (s e : Nat) : List Record :=
  pureRecords (ds.map (fun b =>
    ⟨b.seriesID, b.data.filter (fun it => decide (s ≤ it.year ∧ it.year ≤ e))⟩))

/-- Value of `chunkRecords` on the success path. -/
def pureChunk (y e : Nat) (ds : List SeriesBlock) : List Record :=
  if _h1 : y ≤ e then
    pureFetchRecords ds y (min (y + 9) e) ++ pureChunk (y + 10) e ds
  else []
termination_by e + 1 - y
decreasing_by omega

/-- initial_raw_data.py `main` lines 76-88: an empty record list is the
no-data failure path (modelled `none`); otherwise pivot to wide format and
sort the rows by date (`df_wide.sort_values('Date')`, assigned). -/
def initialTableOf (rs : List Record) : Except String (Option WTable) :=
  if rs.isEmpty then .ok none
  else (pivotRecords rs).map (fun t =>
    some ⟨t.cols, List.insertionSort (fun a b => a.1 ≤ b.1) t.rows⟩)

/-! ### collect_data.py `parse_json` -/

/-- A row of the frame `parse_json` returns: the date, the raw pivoted cells in
column order, the numeric `Hourly Earnings` and `Hours Worked` values (these
overwrite the raw string columns in the DataFrame at lines 59-60) and the
derived `Weekly Income` column. -/
structure CRow where
  date : Nat
  cells : List (Option String)
  hourlyEarnings : Option ℚ
  hoursWorked : Option ℚ
  weeklyIncome : Option ℚ
deriving DecidableEq

/-- The frame returned by collect_data.py `parse_json`. -/
structure CTable where
  cols : List String
  rows : List CRow
deriving DecidableEq

/-- One output row of `parse_json` for the date `d` of the pivoted records:
numeric coercion of the two earnings columns and the `Weekly Income` column of
line 62, `round(table['Hourly Earnings'] * table['Hours Worked'])` - a
product rounded to zero decimal places. -/
def mkCRow (rs : List Record) (cols : List String) (d : Nat) : CRow :=
  let he := toNumericCell (cellVal rs d ("Hourly Earnings"))
  let hw := toNumericCell (cellVal rs d ("Hours Worked"))
  { date := d
    cells := cols.map (fun c => cellVal rs d c)
    hourlyEarnings := he
    hoursWorked := hw
    weeklyIncome := (omul he hw).map round0q }

/-- collect_data.py `parse_json` (lines 38-65).  This parser has no guard: a
null payload raises `TypeError` and a payload without `Results` raises
`KeyError`; an empty record list makes the pivot raise (`pd.DataFrame([])` has
no `Date` column); the pivot raises on duplicate keys; `pd.to_datetime`
(line 58) raises on a month outside 1..12 (e.g. the date built from period
`M13`); the column accesses of lines 59-60 raise if a series is absent. -/
def parseJson (j : Payload) : Except String CTable :=
  match j with
  | none => .error ("TypeError: NoneType is not subscriptable")
  | some none => .error ("KeyError: Results")
  | some (some blocks) => do
    let rs ← jsonRecords blocks
    if rs.isEmpty then .error ("KeyError: Date")
    else do
      let t ← pivotRecords rs
      if !(t.rows.all (fun row => decide (1 ≤ row.1 % 100 ∧ row.1 % 100 ≤ 12))) then
        .error ("ValueError: to_datetime")
      else if !(t.cols.contains ("Hourly Earnings") && t.cols.contains ("Hours Worked")) then
        .error ("KeyError: column")
      else
        .ok ⟨t.cols, t.rows.map (fun row => mkCRow rs t.cols row.1)⟩

/-! ### The persisted snapshot and the two merge operations -/

/-- A persisted wide row: its date and the remaining cells, kept abstract. -/
structure DRow where
  date : Nat
  cells : List (Option String)
deriving DecidableEq

/-- pandas `drop_duplicates(subset = ["Date"], keep = "last")`: a row is kept
iff no later row carries the same date. -/
def dedupKeepLast : List DRow → List DRow
  | [] => []
  | r :: rest =>
    if rest.any (fun s => s.date == r.date) then dedupKeepLast rest
    else r :: dedupKeepLast rest

/-- collect_data.py `update_data` merge (lines 98-106): an empty incoming frame
leaves the file untouched; otherwise concatenate existing then incoming and
drop duplicate dates keeping the last (hence incoming) occurrence.  The
`df.sort_values('Date')` of line 101 discards its result (it is neither
assigned nor `inplace`), so the persisted frame keeps concatenation order. -/
def updateData (existing incoming : List DRow) : List DRow :=
  if incoming.isEmpty then existing
  else dedupKeepLast (existing ++ incoming)

/-- pandas `max(df['Date'])` on the date column. -/
def maxDate (l : List DRow) : Nat := (l.map (fun r => r.date)).foldl max 0

/-- update_raw_data.py `main` (lines 62-97): keep only the incoming rows
strictly after the last existing date; if none remain the file is untouched;
otherwise append them and sort by date (this `sort_values` is `inplace`). -/
def updateRawMain (existing incoming : List DRow) : List DRow :=
  let lastD := maxDate existing
  let fresh := incoming.filter (fun r => decide (lastD < r.date))
  if fresh.isEmpty then existing
  else List.insertionSort (fun a b => a.date ≤ b.date) (existing ++ fresh)

/-! ### The orchestrator of collect_data.py -/

/-- The action `collect_data` decides on. -/
inductive CollectStep where
  | initialLoad
  | updateLoad
  | upToDate
deriving DecidableEq

/-- `datetime.now() - pd.DateOffset(months = 1)` on a `(year, month)` pair (the
day, clamped by pandas, never enters the month arithmetic below). -/
def prevMonth : Nat × Nat → Nat × Nat
  | (y, m) => if m = 1 then (y - 1, 12) else (y, m - 1)

/-- collect_data.py line 117: whole-month difference
`(a.year - b.year) * 12 + (a.month - b.month)`. -/
def monthDiff (a b : Nat × Nat) : ℤ :=
  ((a.1 : ℤ) - (b.1 : ℤ)) * 12 + ((a.2 : ℤ) - (b.2 : ℤ))

/-- Decode the `(year, month)` of an encoded date. -/
def ymOfDate (d : Nat) : Nat × Nat := (d / 100, d % 100)

/-- collect_data.py `collect_data` (lines 109-125): no snapshot file triggers
the initial load; otherwise the snapshot is fresh (no fetch) iff the
whole-month difference between the month before now and the snapshot's max
date is less than one. -/
def collectData (snapshot : Option (List DRow)) (now : Nat × Nat) : CollectStep :=
  match snapshot with
  | none => .initialLoad
  | some df =>
    if monthDiff (prevMonth now) (ymOfDate (maxDate df)) < 1 then .upToDate
    else .updateLoad

/-! ### process_data.py `process_macro_data` -/

/-- An input row of the processing step: the date and the three numeric
columns the derivation reads (NaN is `none`). -/
structure PRow where
  date : Nat
  hourlyEarnings : Option ℚ
  hoursWorked : Option ℚ
  cpi : Option ℚ
deriving DecidableEq

/-- An output row: the inputs plus the two derived columns. -/
structure QRow where
  date : Nat
  hourlyEarnings : Option ℚ
  hoursWorked : Option ℚ
  cpi : Option ℚ
  weeklyEarnings : Option ℚ
  realWeeklyEarnings : Option ℚ
deriving DecidableEq

/-- The `df.sort_values('Date', inplace = True)` of process_data.py line 17. -/
def sortRows (rows : List PRow) : List PRow :=
  List.insertionSort (fun a b => a.date ≤ b.date) rows

/-- One output row of process_data.py: the unrounded product
`Hourly Earnings * Hours Worked` (line 23); `Real Weekly Earnings` divides the
unrounded product by the row CPI and multiplies by `latest_cpi`, the CPI of
the last row of the sorted frame (lines 28-29); both derived columns are then
rounded to 2 decimals (lines 32-33). -/
def processRow (lastRow r : PRow) : QRow :=
  let w := omul r.hourlyEarnings r.hoursWorked
  { date := r.date
    hourlyEarnings := r.hourlyEarnings
    hoursWorked := r.hoursWorked
    cpi := r.cpi
    weeklyEarnings := w.map round2q
    realWeeklyEarnings := (omul (odiv w r.cpi) lastRow.cpi).map round2q }

/-- process_data.py `process_macro_data` (lines 7-36): sort by date, take
`latest_cpi` from the last sorted row (`iloc[-1]`, raising on an empty frame),
and derive the two new columns row by row. -/
def processMacro (rows : List PRow) : Except String (List QRow) :=
  match (sortRows rows).getLast? with
  | none => .error ("IndexError: single positional indexer is out-of-bounds")
  | some lastRow => .ok ((sortRows rows).map (processRow lastRow))

/-! ### Decidable equality of `Except` results, for concrete evaluations -/

instance {e a : Type} [DecidableEq e] [DecidableEq a] : DecidableEq (Except e a) := fun x y =>
  match x, y with
  | .ok v, .ok w =>
    if h : v = w then isTrue (h ▸ rfl) else isFalse (fun hc => h (Except.ok.inj hc))
  | .error v, .error w =>
    if h : v = w then isTrue (h ▸ rfl) else isFalse (fun hc => h (Except.error.inj hc))
  | .ok _, .error _ => isFalse (fun hc => Except.noConfusion hc)
  | .error _, .ok _ => isFalse (fun hc => Except.noConfusion hc)

/-! ### Concrete inputs used by witnesses and counterexamples -/

/-- Sanity condition on a dataset: every period accepted by the filter has a
numeric remainder, so Python's `int` never raises (true of all real BLS period
codes). -/
def periodsParse (ds : List SeriesBlock) : Prop :=
  ∀ b ∈ ds, ∀ it ∈ b.data, acceptPeriod it.period = true → (periodMonth it.period).isSome

instance (ds : List SeriesBlock) : Decidable (periodsParse ds) := by
  unfold periodsParse
  infer_instance

/-- A concrete 17-year dataset with observations on both sides of the 2008-2017
and 2018-2024 chunk boundary. -/
def dsW : List SeriesBlock :=
  [⟨"CUUR0000SA0",
    [⟨2008, "M01", "211.08"⟩, ⟨2019, "M07", "256.571"⟩, ⟨2024, "M12", "315.605"⟩]⟩,
   ⟨"CES0500000003", [⟨2017, "M12", "26.63"⟩, ⟨2018, "M01", "26.74"⟩]⟩]

/-- An existing snapshot of three months. -/
def c9Existing : List DRow :=
  [⟨202401, [some ("3.5")]⟩, ⟨202402, [some ("3.6")]⟩, ⟨202403, [some ("3.7")]⟩]

/-- An incoming frame carrying only a correction for the middle month. -/
def c9Incoming : List DRow := [⟨202402, [some ("3.9")]⟩]

/-- The payload of the C5 counterexample: one month with Hourly Earnings 10.5
and Hours Worked 30.5, whose product is 320.25. -/
def pC5 : Payload :=
  some (some
    [⟨"CES0500000003", [⟨2020, "M01", "10.5"⟩]⟩,
     ⟨"CES0500000002", [⟨2020, "M01", "30.5"⟩]⟩])

/-- A two-row frame whose CPI is the same in both months. -/
def rows6a : List PRow :=
  [⟨202401, some 10, some 4, some 2⟩, ⟨202402, some 1, some 1, some 2⟩]

/-- A two-row frame with an Hourly Earnings value of 1.0035. -/
def rows6b : List PRow :=
  [⟨202401, some (2007 / 2000), some 1, some 1⟩, ⟨202402, some 1, some 1, some 2⟩]

/-! ### Success-path characterization of the record builders -/

theorem filteredRecords_ok {col : String} {items : List RawItem} {rs : List Record}
    (h : filteredRecords col items = .ok rs) : rs = pureFilteredRecords col items := by
  induction items generalizing rs with
  | nil =>
    simp only [filteredRecords] at h
    cases h
    simp [pureFilteredRecords]
  | cons it rest ih =>
    rw [filteredRecords] at h
    by_cases hacc : acceptPeriod it.period
    · rw [if_pos hacc] at h
      cases hm : periodMonth it.period with
      | none => rw [hm] at h; cases h
      | some m =>
        rw [hm] at h
        cases hrec : filteredRecords col rest with
        | error e => rw [hrec] at h; simp [Bind.bind, Except.bind] at h
        | ok rs2 =>
          rw [hrec] at h
          simp only [Bind.bind, Except.bind, Except.ok.injEq] at h
          subst h
          simp [pureFilteredRecords, List.filter_cons, hacc, mkRecord, hm, ih hrec]
    · rw [if_neg hacc] at h
      simp [pureFilteredRecords, List.filter_cons, hacc, ih h]

theorem parseRecords_ok {bs : List SeriesBlock} {rs : List Record}
    (h : parseRecords bs = .ok rs) : rs = pureRecords bs := by
  induction bs generalizing rs with
  | nil =>
    simp only [parseRecords] at h
    cases h
    simp [pureRecords]
  | cons b rest ih =>
    rw [parseRecords] at h
    cases h1 : filteredRecords (colNameOf b.seriesID) b.data with
    | error e => rw [h1] at h; simp [Bind.bind, Except.bind] at h
    | ok r1 =>
      rw [h1] at h
      cases h2 : parseRecords rest with
      | error e => rw [h2] at h; simp [Bind.bind, Except.bind] at h
      | ok r2 =>
        rw [h2] at h
        simp only [Bind.bind, Except.bind, Except.ok.injEq] at h
        subst h
        simp [pureRecords, filteredRecords_ok h1, ih h2]

theorem rawRecords_ok {col : String} {items : List RawItem} {rs : List Record}
    (h : rawRecords col items = .ok rs) : rs = pureRawRecords col items := by
  induction items generalizing rs with
  | nil =>
    simp only [rawRecords] at h
    cases h
    simp [pureRawRecords]
  | cons it rest ih =>
    rw [rawRecords] at h
    cases hm : periodMonth it.period with
    | none => rw [hm] at h; cases h
    | some m =>
      rw [hm] at h
      cases hrec : rawRecords col rest with
      | error e => rw [hrec] at h; simp [Bind.bind, Except.bind] at h
      | ok rs2 =>
        rw [hrec] at h
        simp only [Bind.bind, Except.bind, Except.ok.injEq] at h
        subst h
        simp [pureRawRecords, mkRecord, hm, ih hrec]

theorem jsonRecords_ok {bs : List SeriesBlock} {rs : List Record}
    (h : jsonRecords bs = .ok rs) : rs = pureJsonRecords bs := by
  induction bs generalizing rs with
  | nil =>
    simp only [jsonRecords] at h
    cases h
    simp [pureJsonRecords]
  | cons b rest ih =>
    rw [jsonRecords] at h
    cases h1 : rawRecords (colNameOf b.seriesID) b.data with
    | error e => rw [h1] at h; simp [Bind.bind, Except.bind] at h
    | ok r1 =>
      rw [h1] at h
      cases h2 : jsonRecords rest with
      | error e => rw [h2] at h; simp [Bind.bind, Except.bind] at h
      | ok r2 =>
        rw [h2] at h
        simp only [Bind.bind, Except.bind, Except.ok.injEq] at h
        subst h
        simp [pureJsonRecords, rawRecords_ok h1, ih h2]


theorem filteredRecords_eq_ok {col : String} {items : List RawItem}
    (h : ∀ it ∈ items, acceptPeriod it.period = true → (periodMonth it.period).isSome) :
    filteredRecords col items = .ok (pureFilteredRecords col items) := by
  induction items with
  | nil => simp [filteredRecords, pureFilteredRecords]
  | cons it rest ih =>
    have hrest : ∀ x ∈ rest, acceptPeriod x.period = true → (periodMonth x.period).isSome :=
      fun x hx => h x (List.mem_cons_of_mem _ hx)
    rw [filteredRecords]
    by_cases hacc : acceptPeriod it.period
    · rw [if_pos hacc]
      cases hm : periodMonth it.period with
      | none =>
        have := h it (List.mem_cons_self _ _) hacc
        rw [hm] at this
        cases this
      | some m =>
        rw [ih hrest]
        simp [Bind.bind, Except.bind, pureFilteredRecords, List.filter_cons, hacc, mkRecord, hm]
    · rw [if_neg hacc, ih hrest]
      simp [pureFilteredRecords, List.filter_cons, hacc]

theorem parseRecords_eq_ok {bs : List SeriesBlock} (h : periodsParse bs) :
    parseRecords bs = .ok (pureRecords bs) := by
  induction bs with
  | nil => simp [parseRecords, pureRecords]
  | cons b rest ih =>
    have hb : ∀ it ∈ b.data, acceptPeriod it.period = true → (periodMonth it.period).isSome :=
      h b (List.mem_cons_self _ _)
    have hrest : periodsParse rest := fun x hx => h x (List.mem_cons_of_mem _ hx)
    rw [parseRecords, filteredRecords_eq_ok hb, ih hrest]
    simp [Bind.bind, Except.bind, pureRecords]

/-- The condition `periodsParse` carries over to any fetched window. -/
theorem periodsParse_fetch {ds : List SeriesBlock} (h : periodsParse ds) (s e : Nat) :
    periodsParse (ds.map (fun b =>
      ⟨b.seriesID, b.data.filter (fun it => decide (s ≤ it.year ∧ it.year ≤ e))⟩)) := by
  intro b hb it hit
  rw [List.mem_map] at hb
  obtain ⟨b0, hb0, rfl⟩ := hb
  exact h b0 hb0 it (List.mem_of_mem_filter hit)

theorem chunkRecords_eq_ok {ds : List SeriesBlock} (h : periodsParse ds) (y e : Nat) :
    chunkRecords y e ds = .ok (pureChunk y e ds) := by
  rw [chunkRecords, pureChunk]
  by_cases hy : y ≤ e
  · rw [dif_pos hy, dif_pos hy]
    have h1 : parseBlsResponse (fetchModel ds y (min (y + 9) e)) =
        .ok (pureFetchRecords ds y (min (y + 9) e)) :=
      parseRecords_eq_ok (periodsParse_fetch h y (min (y + 9) e))
    rw [h1, chunkRecords_eq_ok h (y + 10) e]
    simp [Bind.bind, Except.bind]
  · rw [dif_neg hy, dif_neg hy]
termination_by e + 1 - y
decreasing_by omega

/-! ### Permutation facts: the chunked backfill gathers the same records -/

theorem filter_partition_perm {α : Type} (p q r : α → Bool)
    (hp : ∀ x, p x = (q x || r x)) (hqr : ∀ x, ¬(q x = true ∧ r x = true)) :
    ∀ l : List α, List.Perm (l.filter q ++ l.filter r) (l.filter p) := by
  intro l
  induction l with
  | nil => simp
  | cons a t ih =>
    by_cases hq : q a
    · have hr : r a = false := by
        cases hra : r a
        · rfl
        · exact absurd ⟨hq, hra⟩ (hqr a)
      have hpa : p a := by rw [hp a, hq]; rfl
      simp only [List.filter_cons, hq, hr, hpa, if_true, Bool.false_eq_true, if_false,
        List.cons_append]
      exact ih.cons a
    · have hqf : q a = false := Bool.not_eq_true _ ▸ (by simpa using hq)
      by_cases hr : r a
      · have hpa : p a := by rw [hp a, hqf, hr]; rfl
        simp only [List.filter_cons, hqf, hr, hpa, if_true, Bool.false_eq_true, if_false]
        exact List.perm_middle.trans (ih.cons a)
      · have hrf : r a = false := Bool.not_eq_true _ ▸ (by simpa using hr)
        have hpa : p a = false := by rw [hp a, hqf, hrf]; rfl
        simp only [List.filter_cons, hqf, hrf, hpa, Bool.false_eq_true, if_false]
        exact ih

theorem flatMap_append_perm {α β : Type} (f g : α → List β) :
    ∀ l : List α, List.Perm (l.flatMap f ++ l.flatMap g) (l.flatMap fun a => f a ++ g a) := by
  intro l
  induction l with
  | nil => simp
  | cons a t ih =>
    simp only [List.flatMap_cons, List.append_assoc]
    refine List.Perm.append_left (f a) ?_
    exact (List.perm_append_comm_assoc _ _ _).trans (List.Perm.append_left (g a) ih)

/-- Splitting a year range at `b` splits the fetched records, up to order. -/
theorem pureFetchRecords_split {ds : List SeriesBlock} {a b c : Nat}
    (hab : a ≤ b) (hbc : b < c) :
    List.Perm (pureFetchRecords ds a b ++ pureFetchRecords ds (b + 1) c)
      (pureFetchRecords ds a c) := by
  unfold pureFetchRecords pureRecords
  rw [List.flatMap_map, List.flatMap_map, List.flatMap_map]
  refine (flatMap_append_perm _ _ ds).trans ?_
  refine List.Perm.flatMap_left ds (fun blk _ => ?_)
  unfold pureFilteredRecords
  simp only [List.filter_filter]
  rw [← List.map_append]
  refine List.Perm.map _ ?_
  refine filter_partition_perm _ _ _ (fun it => ?_) (fun it => ?_) blk.data
  · by_cases h1 : acceptPeriod it.period
    · simp only [h1, Bool.and_true, Bool.true_and, ← Bool.decide_or]
      exact decide_eq_decide.mpr (by omega)
    · have h1f : acceptPeriod it.period = false := by simpa using h1
      simp [h1f]
  · rintro ⟨h1, h2⟩
    rw [Bool.and_eq_true, decide_eq_true_iff] at h1 h2
    omega

/-- The chunked backfill collects, up to order, exactly the records of a
single fetch of the whole span. -/
theorem pureChunk_perm (ds : List SeriesBlock) (y e : Nat) :
    List.Perm (pureChunk y e ds) (pureFetchRecords ds y e) := by
  rw [pureChunk]
  by_cases hy : y ≤ e
  · rw [dif_pos hy]
    by_cases hend : e ≤ y + 9
    · have hmin : min (y + 9) e = e := by omega
      have hnil : pureChunk (y + 10) e ds = [] := by
        rw [pureChunk, dif_neg (by omega)]
      rw [hmin, hnil, List.append_nil]
    · have hmin : min (y + 9) e = y + 9 := by omega
      rw [hmin]
      have ih := pureChunk_perm ds (y + 10) e
      refine (List.Perm.append_left _ ih).trans ?_
      exact pureFetchRecords_split (by omega) (by omega)
  · rw [dif_neg hy]
    have hempty : pureFetchRecords ds y e = [] := by
      unfold pureFetchRecords pureRecords
      rw [List.flatMap_map]
      dsimp only
      refine List.flatMap_eq_nil_iff.mpr (fun b _ => ?_)
      have hfil : b.data.filter (fun it => decide (y ≤ it.year ∧ it.year ≤ e)) = [] :=
        List.filter_eq_nil_iff.mpr (fun it _ => by
          simp only [decide_eq_true_eq]
          omega)
      rw [pureFilteredRecords, hfil]
      simp
    rw [hempty]
termination_by e + 1 - y
decreasing_by omega

/-! ### The pivot is invariant under reordering of the records -/

theorem sortedDedup_perm_eq {α : Type} [LinearOrder α] [DecidableEq α] {l1 l2 : List α}
    (h : List.Perm l1 l2) : sortedDedup l1 = sortedDedup l2 := by
  unfold sortedDedup
  refine List.eq_of_perm_of_sorted ?_ (List.sorted_insertionSort _ _)
    (List.sorted_insertionSort _ _)
  exact (List.perm_insertionSort _ _).trans (h.dedup.trans (List.perm_insertionSort _ _).symm)

theorem charListLe_total : ∀ l1 l2, charListLe l1 l2 = true ∨ charListLe l2 l1 = true := by
  intro l1
  induction l1 with
  | nil => intro l2; left; rfl
  | cons a as ih =>
    intro l2
    cases l2 with
    | nil => right; rfl
    | cons b bs =>
      rcases Nat.lt_trichotomy a.toNat b.toNat with h | h | h
      · left
        simp [charListLe, h]
      · rcases ih bs with h2 | h2
        · left
          simp [charListLe, h, h2]
        · right
          simp [charListLe, h, h2]
      · right
        simp [charListLe, h]

theorem charListLe_trans : ∀ l1 l2 l3, charListLe l1 l2 = true → charListLe l2 l3 = true →
    charListLe l1 l3 = true := by
  intro l1
  induction l1 with
  | nil => intro l2 l3 _ _; rfl
  | cons a as ih =>
    intro l2 l3 h12 h23
    cases l2 with
    | nil => simp [charListLe] at h12
    | cons b bs =>
      cases l3 with
      | nil => simp [charListLe] at h23
      | cons c cs =>
        rw [charListLe] at h12 h23 ⊢
        by_cases hab : a.toNat < b.toNat
        · by_cases hbc : b.toNat < c.toNat
          · simp [Nat.lt_trans hab hbc]
          · by_cases hcb : c.toNat < b.toNat
            · simp [hbc, hcb] at h23
            · have hbceq : b.toNat = c.toNat := by omega
              simp [show a.toNat < c.toNat by omega]
        · by_cases hba : b.toNat < a.toNat
          · simp [hab, hba] at h12
          · have habeq : a.toNat = b.toNat := by omega
            by_cases hbc : b.toNat < c.toNat
            · simp [show a.toNat < c.toNat by omega]
            · by_cases hcb : c.toNat < b.toNat
              · simp [hbc, hcb] at h23
              · have hbceq : b.toNat = c.toNat := by omega
                rw [if_neg hab, if_neg hba] at h12
                rw [if_neg hbc, if_neg hcb] at h23
                rw [if_neg (by omega : ¬ a.toNat < c.toNat),
                  if_neg (by omega : ¬ c.toNat < a.toNat)]
                exact ih bs cs h12 h23

theorem char_eq_of_toNat_eq {a b : Char} (h : a.toNat = b.toNat) : a = b := by
  apply Char.ext
  exact UInt32.toNat.inj h

theorem charListLe_antisymm : ∀ l1 l2, charListLe l1 l2 = true → charListLe l2 l1 = true →
    l1 = l2 := by
  intro l1
  induction l1 with
  | nil =>
    intro l2 _ h21
    cases l2 with
    | nil => rfl
    | cons b bs => simp [charListLe] at h21
  | cons a as ih =>
    intro l2 h12 h21
    cases l2 with
    | nil => simp [charListLe] at h12
    | cons b bs =>
      rw [charListLe] at h12 h21
      by_cases hab : a.toNat < b.toNat
      · rw [if_neg (by omega : ¬ b.toNat < a.toNat), if_pos hab] at h21
        cases h21
      · by_cases hba : b.toNat < a.toNat
        · rw [if_neg hab, if_pos hba] at h12
          cases h12
        · rw [if_neg hab, if_neg hba] at h12
          rw [if_neg hba, if_neg hab] at h21
          rw [char_eq_of_toNat_eq (by omega : a.toNat = b.toNat), ih bs h12 h21]

theorem sortedDedupStr_perm_eq {l1 l2 : List String} (h : List.Perm l1 l2) :
    sortedDedupStr l1 = sortedDedupStr l2 := by
  haveI : IsTotal String (fun a b => strLe a b = true) :=
    ⟨fun a b => charListLe_total a.data b.data⟩
  haveI : IsTrans String (fun a b => strLe a b = true) :=
    ⟨fun a b c => charListLe_trans a.data b.data c.data⟩
  haveI : IsAntisymm String (fun a b => strLe a b = true) :=
    ⟨fun a b h1 h2 => by
      have hd : a.data = b.data := charListLe_antisymm a.data b.data h1 h2
      cases a
      cases b
      exact congrArg String.mk (by simpa using hd)⟩
  unfold sortedDedupStr
  refine List.eq_of_perm_of_sorted ?_ (List.sorted_insertionSort _ _)
    (List.sorted_insertionSort _ _)
  exact (List.perm_insertionSort _ _).trans (h.dedup.trans (List.perm_insertionSort _ _).symm)

theorem cellVal_perm {rs1 rs2 : List Record} (hperm : List.Perm rs1 rs2)
    (hnd : (recordKeys rs2).Nodup) (d : Nat) (c : String) :
    cellVal rs1 d c = cellVal rs2 d c := by
  unfold cellVal
  cases hf : rs1.find? (fun r => r.date == d && r.series == c) with
  | none =>
    cases hg : rs2.find? (fun r => r.date == d && r.series == c) with
    | none => rfl
    | some s =>
      exfalso
      have hsmem : s ∈ rs1 := hperm.symm.subset (List.mem_of_find?_eq_some hg)
      have hspred := @List.find?_some Record _ _ _ hg
      exact (List.find?_eq_none.mp hf s hsmem) hspred
  | some r =>
    have hrpred := @List.find?_some Record _ _ _ hf
    have hrmem : r ∈ rs2 := hperm.subset (List.mem_of_find?_eq_some hf)
    cases hg : rs2.find? (fun r => r.date == d && r.series == c) with
    | none =>
      exfalso
      exact (List.find?_eq_none.mp hg r hrmem) hrpred
    | some s =>
      have hspred := @List.find?_some Record _ _ _ hg
      have hsmem : s ∈ rs2 := List.mem_of_find?_eq_some hg
      have hnd2 : (rs2.map (fun r : Record => (r.date, r.series))).Nodup := hnd
      have hr2 : r.date = d ∧ r.series = c := by simpa using hrpred
      have hs2 : s.date = d ∧ s.series = c := by simpa using hspred
      have hkey : (fun r : Record => (r.date, r.series)) r =
          (fun r : Record => (r.date, r.series)) s := by
        simp [hr2.1, hr2.2, hs2.1, hs2.2]
      have hrs : r = s := List.inj_on_of_nodup_map hnd2 hrmem hsmem hkey
      rw [hrs]

theorem recordKeys_nodup_of_perm {rs1 rs2 : List Record} (hperm : List.Perm rs1 rs2)
    (hnd : (recordKeys rs2).Nodup) : (recordKeys rs1).Nodup :=
  ((hperm.map (fun r : Record => (r.date, r.series))).nodup_iff).mpr hnd

theorem pivotRecords_perm_eq {rs1 rs2 : List Record} (hperm : List.Perm rs1 rs2)
    (hnd : (recordKeys rs2).Nodup) : pivotRecords rs1 = pivotRecords rs2 := by
  have hnd1 : (recordKeys rs1).Nodup := recordKeys_nodup_of_perm hperm hnd
  have hc : recordCols rs1 = recordCols rs2 := sortedDedupStr_perm_eq (hperm.map _)
  have hd : recordDates rs1 = recordDates rs2 := sortedDedup_perm_eq (hperm.map _)
  have hcell : ∀ d c, cellVal rs1 d c = cellVal rs2 d c := cellVal_perm hperm hnd
  unfold pivotRecords
  rw [if_pos hnd1, if_pos hnd]
  rw [hc, hd]
  simp [hcell]

/-! ### Claim C8 -/

/-- C8: for every year span and every fixed underlying dataset, the backfill
that fetches in at-most-10-year chunks and concatenates the parsed results
(initial_raw_data.py `main`) produces a table identical to parsing a single
un-chunked fetch covering the same span.  Hypotheses: every accepted period of
the dataset has a numeric remainder (true of all real BLS period codes), and
the single fetch has no duplicate `(date, series)` pair (otherwise both sides
raise in the pivot). -/
theorem C8_chunked_backfill_eq_single (ds : List SeriesBlock) (s e : Nat)
    (hok : periodsParse ds)
    (hnd : (recordKeys (pureFetchRecords ds s e)).Nodup) :
    (chunkRecords s e ds).bind initialTableOf =
      (parseBlsResponse (fetchModel ds s e)).bind initialTableOf := by
  rw [chunkRecords_eq_ok hok s e]
  have hsingle : parseBlsResponse (fetchModel ds s e) = .ok (pureFetchRecords ds s e) :=
    parseRecords_eq_ok (periodsParse_fetch hok s e)
  rw [hsingle]
  show initialTableOf (pureChunk s e ds) = initialTableOf (pureFetchRecords ds s e)
  have hperm := pureChunk_perm ds s e
  unfold initialTableOf
  by_cases hnil : pureFetchRecords ds s e = []
  · have h2 : pureChunk s e ds = [] := by
      have hp := hperm
      rw [hnil] at hp
      exact hp.eq_nil
    rw [hnil, h2]
  · have h2 : pureChunk s e ds ≠ [] := by
      intro hcon
      rw [hcon] at hperm
      exact hnil hperm.symm.eq_nil
    have e1 : (pureChunk s e ds).isEmpty = false := by
      simp [List.isEmpty_iff, h2]
    have e2 : (pureFetchRecords ds s e).isEmpty = false := by
      simp [List.isEmpty_iff, hnil]
    rw [e1, e2]
    simp only [Bool.false_eq_true, if_false]
    rw [pivotRecords_perm_eq hperm hnd]


/-- Witness for C8 at the claim's example span 2008-2024. -/
theorem C8_chunked_backfill_eq_single_witness :
    (chunkRecords 2008 2024 dsW).bind initialTableOf =
      (parseBlsResponse (fetchModel dsW 2008 2024)).bind initialTableOf :=
  C8_chunked_backfill_eq_single dsW 2008 2024 (by decide) (by decide)

/-! ### Claim C2 -/

theorem mem_pureRecords {bs : List SeriesBlock} {r : Record} :
    r ∈ pureRecords bs ↔
      ∃ b ∈ bs, ∃ it ∈ b.data, acceptPeriod it.period = true ∧
        r = mkRecord (colNameOf b.seriesID) it := by
  simp only [pureRecords, List.mem_flatMap, pureFilteredRecords, List.mem_map, List.mem_filter]
  constructor
  · rintro ⟨b, hb, it, ⟨hit, hacc⟩, rfl⟩
    exact ⟨b, hb, it, hit, hacc, rfl⟩
  · rintro ⟨b, hb, it, hit, hacc, rfl⟩
    exact ⟨b, hb, it, ⟨hit, hacc⟩, rfl⟩

theorem mem_pureJsonRecords {bs : List SeriesBlock} {r : Record} :
    r ∈ pureJsonRecords bs ↔
      ∃ b ∈ bs, ∃ it ∈ b.data, r = mkRecord (colNameOf b.seriesID) it := by
  simp only [pureJsonRecords, List.mem_flatMap, pureRawRecords, List.mem_map]
  constructor
  · rintro ⟨b, hb, it, hit, rfl⟩
    exact ⟨b, hb, it, hit, rfl⟩
  · rintro ⟨b, hb, it, hit, rfl⟩
    exact ⟨b, hb, it, hit, rfl⟩

/-- C2 (amended): in the two filtering parsers a record is emitted for an
observation exactly when its period contains the letter `M` and differs from
`M13` (and, on the success path, its digits parse); this accepts all of
M01..M12 and rejects M13, but also admits other `M`-containing codes such as
M14.  collect_data.py's `parse_json` applies no period filter at all: its
record list has an entry for every observation, M13 included. -/
theorem C2_period_filter :
    (∀ (bs : List SeriesBlock) (rs : List Record) (r : Record),
      parseRecords bs = .ok rs →
      (r ∈ rs ↔ ∃ b ∈ bs, ∃ it ∈ b.data, acceptPeriod it.period = true ∧
        r = mkRecord (colNameOf b.seriesID) it)) ∧
    (∀ (bs : List SeriesBlock) (rs : List Record) (r : Record),
      jsonRecords bs = .ok rs →
      (r ∈ rs ↔ ∃ b ∈ bs, ∃ it ∈ b.data, r = mkRecord (colNameOf b.seriesID) it)) ∧
    ((["M01", "M02", "M03", "M04", "M05", "M06", "M07", "M08", "M09", "M10", "M11",
       "M12"].all (fun p => acceptPeriod p)) = true ∧
      acceptPeriod ("M13") = false ∧ acceptPeriod ("M14") = true) := by
  refine ⟨?_, ?_, by decide, by decide, by decide⟩
  · intro bs rs r h
    rw [parseRecords_ok h]
    exact mem_pureRecords
  · intro bs rs r h
    rw [jsonRecords_ok h]
    exact mem_pureJsonRecords

/-- Witness for C2: a concrete payload whose single observation has period
M05; the record for it is emitted. -/
theorem C2_period_filter_witness :
    (⟨202005, "CPI", "1.5"⟩ : Record) ∈ [(⟨202005, "CPI", "1.5"⟩ : Record)] :=
  (C2_period_filter.1 [⟨"CUUR0000SA0", [⟨2020, "M05", "1.5"⟩]⟩]
      [⟨202005, "CPI", "1.5"⟩] ⟨202005, "CPI", "1.5"⟩ (by decide)).mpr
    ⟨⟨"CUUR0000SA0", [⟨2020, "M05", "1.5"⟩]⟩, by decide, ⟨2020, "M05", "1.5"⟩, by decide,
      by decide, by decide⟩

/-- Counterexample to C2 as stated: an observation with period `M14` -- not
one of the monthly codes M01..M12 -- does produce a cell in the table
returned by `parse_and_process`, and collect_data.py's record builder emits a
record for an `M13` (annual average) observation. -/
theorem C2_counterexample :
    parseAndProcess (some (some [⟨"CES0500000003", [⟨2019, "M14", "9.9"⟩]⟩])) =
      .ok ⟨["Hourly Earnings"], [(201914, [some ("9.9")])]⟩ ∧
    jsonRecords [⟨"CES0500000003", [⟨2019, "M13", "7.7"⟩]⟩] =
      .ok [⟨201913, "Hourly Earnings", "7.7"⟩] := by
  exact ⟨by decide, by decide⟩

/-! ### Claim C3 -/

/-- C3 (amended): `parse_and_process` (and the guard of `parse_bls_response`)
return an empty result, without raising, on a null payload and on a payload
lacking the `Results` key; collect_data.py's `parse_json` instead raises on
both inputs. -/
theorem C3_empty_input_behaviour :
    parseAndProcess none = .ok ⟨[], []⟩ ∧
    parseAndProcess (some none) = .ok ⟨[], []⟩ ∧
    parseBlsResponse none = .ok [] ∧
    parseBlsResponse (some none) = .ok [] ∧
    parseJson none = .error ("TypeError: NoneType is not subscriptable") ∧
    parseJson (some none) = .error ("KeyError: Results") :=
  ⟨rfl, rfl, rfl, rfl, rfl, rfl⟩

/-- Counterexample to C3 as stated: on a payload lacking the `Results` key the
parse step of collect_data.py raises (`KeyError`) instead of returning an
empty table. -/
theorem C3_counterexample :
    parseJson (some none) = .error ("KeyError: Results") := rfl

/-! ### Claim C1 -/

theorem mem_of_mem_dedupKeepLast {l : List DRow} {r : DRow}
    (h : r ∈ dedupKeepLast l) : r ∈ l := by
  induction l with
  | nil => cases h
  | cons a rest ih =>
    rw [dedupKeepLast] at h
    by_cases hany : rest.any (fun s => s.date == a.date)
    · rw [if_pos hany] at h
      exact List.mem_cons_of_mem _ (ih h)
    · rw [if_neg hany] at h
      rcases List.mem_cons.mp h with rfl | h2
      · exact List.mem_cons_self _ _
      · exact List.mem_cons_of_mem _ (ih h2)

theorem dedupKeepLast_dates_nodup (l : List DRow) :
    ((dedupKeepLast l).map (fun r => r.date)).Nodup := by
  induction l with
  | nil => simp [dedupKeepLast]
  | cons a rest ih =>
    rw [dedupKeepLast]
    by_cases hany : rest.any (fun s => s.date == a.date)
    · rw [if_pos hany]
      exact ih
    · rw [if_neg hany]
      rw [List.map_cons, List.nodup_cons]
      refine ⟨?_, ih⟩
      intro hmem
      rcases List.mem_map.mp hmem with ⟨s, hs, hdate⟩
      have hs2 : s ∈ rest := mem_of_mem_dedupKeepLast hs
      have hanyf : rest.any (fun s => s.date == a.date) = false := by
        simpa using hany
      exact (List.any_eq_false.mp hanyf s hs2) (by simp [hdate])

theorem mem_dedupKeepLast_last {l1 l2 : List DRow} {r : DRow}
    (h : ∀ s ∈ l2, s.date ≠ r.date) : r ∈ dedupKeepLast (l1 ++ r :: l2) := by
  induction l1 with
  | nil =>
    rw [List.nil_append, dedupKeepLast]
    have hany : l2.any (fun s => s.date == r.date) = false := by
      rw [List.any_eq_false]
      intro x hx
      simpa using h x hx
    rw [if_neg (by simp [hany])]
    exact List.mem_cons_self _ _
  | cons a l1 ih =>
    rw [List.cons_append, dedupKeepLast]
    by_cases hany : (l1 ++ r :: l2).any (fun s => s.date == a.date)
    · rw [if_pos hany]
      exact ih
    · rw [if_neg hany]
      exact List.mem_cons_of_mem _ ih

/-- C1: for every existing snapshot and every non-empty incoming frame (whose
dates, coming from a pivot, are distinct), the merge of collect_data.py
`update_data` yields each date at most once, and for any date present in both
frames the merged table contains exactly the incoming row for that date. -/
theorem C1_update_merge_incoming_wins (existing incoming : List DRow)
    (hne : incoming ≠ [])
    (hnd : (incoming.map (fun r => r.date)).Nodup) :
    ((updateData existing incoming).map (fun r => r.date)).Nodup ∧
    ∀ r ∈ incoming, (∃ ex ∈ existing, ex.date = r.date) →
      r ∈ updateData existing incoming ∧
      ∀ s ∈ updateData existing incoming, s.date = r.date → s = r := by
  have hu : updateData existing incoming = dedupKeepLast (existing ++ incoming) := by
    rw [updateData, if_neg]
    simpa [List.isEmpty_iff] using hne
  rw [hu]
  refine ⟨dedupKeepLast_dates_nodup _, ?_⟩
  intro r hr _hex
  obtain ⟨i1, i2, rfl⟩ := List.append_of_mem hr
  have hno : ∀ s ∈ i2, s.date ≠ r.date := by
    have h2 := hnd
    rw [List.map_append, List.map_cons] at h2
    have h3 := h2.of_append_right
    rw [List.nodup_cons] at h3
    intro s hs hc
    exact h3.1 (List.mem_map.mpr ⟨s, hs, hc⟩)
  have hmem : r ∈ dedupKeepLast ((existing ++ i1) ++ r :: i2) := mem_dedupKeepLast_last hno
  rw [List.append_assoc] at hmem
  refine ⟨hmem, ?_⟩
  intro s hs hdate
  exact List.inj_on_of_nodup_map
    (dedupKeepLast_dates_nodup (existing ++ (i1 ++ r :: i2))) hs hmem hdate

/-- Witness for C1: merging a one-row snapshot with a corrected row for the
same date keeps exactly the incoming row. -/
theorem C1_update_merge_incoming_wins_witness :
    (⟨202401, [some ("2")]⟩ : DRow) ∈
      updateData [⟨202401, [some ("1")]⟩] [⟨202401, [some ("2")]⟩] :=
  ((C1_update_merge_incoming_wins [⟨202401, [some ("1")]⟩] [⟨202401, [some ("2")]⟩]
      (by decide) (by decide)).2 ⟨202401, [some ("2")]⟩ (by decide)
    ⟨⟨202401, [some ("1")]⟩, by decide, rfl⟩).1

/-! ### Claim C9 -/


/-- C9 evaluated at the failing input: because the `df.sort_values('Date')` of
collect_data.py line 101 discards its result, the snapshot `update_data`
persists keeps concatenation order - here 2024-01, 2024-03, 2024-02 - and its
dates are not sorted ascending, refuting the strictly-increasing invariant for
the persisted merge result. -/
theorem C9_unsorted_persist :
    updateData c9Existing c9Incoming =
      [⟨202401, [some ("3.5")]⟩, ⟨202403, [some ("3.7")]⟩, ⟨202402, [some ("3.9")]⟩] ∧
    ¬ List.Sorted (fun a b => a ≤ b)
        ((updateData c9Existing c9Incoming).map (fun r => r.date)) :=
  ⟨by decide, by decide⟩

/-! ### Claim C10 -/

/-- C10: update_raw_data.py `main` is append-only.  Every existing row is kept
unchanged in the result; every result row is either an existing row or an
incoming row strictly later than the existing maximum date; and every incoming
row strictly later than the existing maximum date is added. -/
theorem C10_update_raw_append_only (existing incoming : List DRow)
    (_hne : existing ≠ []) :
    (∀ r ∈ existing, r ∈ updateRawMain existing incoming) ∧
    (∀ s ∈ updateRawMain existing incoming,
      s ∈ existing ∨ (s ∈ incoming ∧ maxDate existing < s.date)) ∧
    (∀ r ∈ incoming, maxDate existing < r.date →
      r ∈ updateRawMain existing incoming) := by
  rw [updateRawMain]
  by_cases hfe : (incoming.filter (fun r => decide (maxDate existing < r.date))).isEmpty
  · rw [if_pos hfe]
    refine ⟨fun r hr => hr, fun s hs => Or.inl hs, ?_⟩
    intro r hr hlt
    exfalso
    have hnil : incoming.filter (fun r => decide (maxDate existing < r.date)) = [] := by
      simpa [List.isEmpty_iff] using hfe
    have : r ∈ incoming.filter (fun r => decide (maxDate existing < r.date)) :=
      List.mem_filter.mpr ⟨hr, by simpa using hlt⟩
    rw [hnil] at this
    cases this
  · rw [if_neg hfe]
    have hperm := List.perm_insertionSort (fun a b : DRow => a.date ≤ b.date)
      (existing ++ incoming.filter (fun r => decide (maxDate existing < r.date)))
    refine ⟨?_, ?_, ?_⟩
    · intro r hr
      exact hperm.symm.subset (List.mem_append_left _ hr)
    · intro s hs
      rcases List.mem_append.mp (hperm.subset hs) with h1 | h2
      · exact Or.inl h1
      · rcases List.mem_filter.mp h2 with ⟨hmem, hlt⟩
        exact Or.inr ⟨hmem, by simpa using hlt⟩
    · intro r hr hlt
      refine hperm.symm.subset (List.mem_append_right _ ?_)
      exact List.mem_filter.mpr ⟨hr, by simpa using hlt⟩

/-- Witness for C10: an existing row is kept and the strictly-later incoming
row is added, while the incoming correction for an already-present date is
discarded. -/
theorem C10_update_raw_append_only_witness :
    (⟨202402, [some ("6")]⟩ : DRow) ∈
      updateRawMain [⟨202401, [some ("5")]⟩, ⟨202402, [some ("6")]⟩]
        [⟨202402, [some ("6.5")]⟩, ⟨202403, [some ("7")]⟩] ∧
    (⟨202403, [some ("7")]⟩ : DRow) ∈
      updateRawMain [⟨202401, [some ("5")]⟩, ⟨202402, [some ("6")]⟩]
        [⟨202402, [some ("6.5")]⟩, ⟨202403, [some ("7")]⟩] :=
  ⟨(C10_update_raw_append_only [⟨202401, [some ("5")]⟩, ⟨202402, [some ("6")]⟩]
      [⟨202402, [some ("6.5")]⟩, ⟨202403, [some ("7")]⟩] (by decide)).1
    ⟨202402, [some ("6")]⟩ (by decide),
   (C10_update_raw_append_only [⟨202401, [some ("5")]⟩, ⟨202402, [some ("6")]⟩]
      [⟨202402, [some ("6.5")]⟩, ⟨202403, [some ("7")]⟩] (by decide)).2.2
    ⟨202403, [some ("7")]⟩ (by decide) (by decide)⟩

/-! ### Claim C4 -/

/-- C4: with a snapshot present, the orchestrator reports the data up to date
(no fetch) exactly when the whole-month difference between the month before
now and the snapshot's maximum date is less than one; in particular a snapshot
ending 2024-06-01 is fresh on 2024-06-15 and stale on 2024-08-01 (the day of
month never enters the comparison). -/
theorem C4_staleness_rule :
    (∀ (df : List DRow) (now : Nat × Nat), df ≠ [] →
      (collectData (some df) now = .upToDate ↔
        monthDiff (prevMonth now) (ymOfDate (maxDate df)) < 1)) ∧
    collectData (some [⟨202406, []⟩]) (2024, 6) = .upToDate ∧
    collectData (some [⟨202406, []⟩]) (2024, 8) = .updateLoad := by
  refine ⟨?_, by decide, by decide⟩
  intro df now _hne
  rw [collectData]
  by_cases h : monthDiff (prevMonth now) (ymOfDate (maxDate df)) < 1
  · rw [if_pos h]
    simp [h]
  · rw [if_neg h]
    simp [h]

/-- Witness for C4 at the claim's scenario snapshot. -/
theorem C4_staleness_rule_witness :
    collectData (some [⟨202406, []⟩]) (2024, 6) = .upToDate ↔
      monthDiff (prevMonth (2024, 6)) (ymOfDate (maxDate [⟨202406, []⟩])) < 1 :=
  C4_staleness_rule.1 [⟨202406, []⟩] (2024, 6) (by decide)

/-! ### Shared facts about `processMacro` (claims C5, C6, C7) -/

theorem omul_none_left (b : Option ℚ) : omul none b = none := by cases b <;> rfl

theorem omul_none_right (a : Option ℚ) : omul a none = none := by cases a <;> rfl

theorem odiv_none_left (b : Option ℚ) : odiv none b = none := by cases b <;> rfl

theorem processMacro_ok {rows : List PRow} {t : List QRow}
    (h : processMacro rows = .ok t) :
    ∃ lastRow, (sortRows rows).getLast? = some lastRow ∧
      t = (sortRows rows).map (processRow lastRow) := by
  rw [processMacro] at h
  cases hl : (sortRows rows).getLast? with
  | none => rw [hl] at h; cases h
  | some lastRow =>
    rw [hl] at h
    exact ⟨lastRow, rfl, (Except.ok.inj h).symm⟩

/-! ### Claim C7 -/

/-- C7: for every processed frame, a row's Weekly Earnings is NaN exactly when
its Hourly Earnings or its Hours Worked is NaN; a NaN Weekly Earnings makes
Real Weekly Earnings NaN as well; and no row is dropped (the output has one
row per input row). -/
theorem C7_nan_propagation (rows : List PRow) (t : List QRow)
    (h : processMacro rows = .ok t) :
    t.length = rows.length ∧
    ∀ o ∈ t, (o.weeklyEarnings = none ↔
        o.hourlyEarnings = none ∨ o.hoursWorked = none) ∧
      (o.weeklyEarnings = none → o.realWeeklyEarnings = none) := by
  obtain ⟨lastRow, hl, rfl⟩ := processMacro_ok h
  constructor
  · rw [List.length_map]
    exact (List.perm_insertionSort _ _).length_eq
  · intro o ho
    rcases List.mem_map.mp ho with ⟨r, hr, rfl⟩
    obtain ⟨d, he, hw, cp⟩ := r
    constructor
    · cases he <;> cases hw <;> simp [processRow, omul]
    · cases he <;> cases hw <;> simp [processRow, omul, odiv_none_left]

/-- Witness for C7 on a one-row frame with NaN Hourly Earnings. -/
theorem C7_nan_propagation_witness :
    (⟨202401, none, some 1, some 2, none, none⟩ : QRow).weeklyEarnings = none ↔
      (⟨202401, none, some 1, some 2, none, none⟩ : QRow).hourlyEarnings = none ∨
      (⟨202401, none, some 1, some 2, none, none⟩ : QRow).hoursWorked = none :=
  ((C7_nan_propagation [⟨202401, none, some 1, some 2⟩]
      [⟨202401, none, some 1, some 2, none, none⟩] (by decide)).2
    ⟨202401, none, some 1, some 2, none, none⟩ (by decide)).1

/-! ### Claim C5 -/

theorem mkCRow_weeklyIncome (rs : List Record) (cols : List String) (d : Nat) :
    (mkCRow rs cols d).weeklyIncome =
      (omul (mkCRow rs cols d).hourlyEarnings (mkCRow rs cols d).hoursWorked).map
        round0q := rfl

/-- Every row of a frame `parse_json` successfully returns is built by
`mkCRow`. -/
theorem parseJson_rows_shape {j : Payload} {t : CTable} (h : parseJson j = .ok t) :
    ∃ rs, ∀ r ∈ t.rows, ∃ cols d, r = mkCRow rs cols d := by
  match j with
  | none => exact absurd h (by simp [parseJson])
  | some none => exact absurd h (by simp [parseJson])
  | some (some blocks) =>
    rw [parseJson] at h
    cases h1 : jsonRecords blocks with
    | error e =>
      rw [h1] at h
      simp [Bind.bind, Except.bind] at h
    | ok rs =>
      rw [h1] at h
      simp only [Bind.bind, Except.bind] at h
      split at h
      · cases h
      · cases h2 : pivotRecords rs with
        | error e =>
          rw [h2] at h
          cases h
        | ok t0 =>
          rw [h2] at h
          split at h
          · cases h
          · split at h
            · cases h
            · split at h
              · cases h
              · obtain rfl := Except.ok.inj h
                refine ⟨rs, ?_⟩
                intro r hr
                rcases List.mem_map.mp hr with ⟨row, _hrow, rfl⟩
                exact ⟨_, row.1, rfl⟩

/-- C5 (amended): in process_data.py, whenever Hourly Earnings and Hours
Worked are both numeric, the Weekly Earnings column is their product rounded
to 2 decimal places; in collect_data.py `parse_json`, the analogous derived
column (named Weekly Income, line 62) is the product rounded to 0 decimal
places instead. -/
theorem C5_weekly_earnings_rounding :
    (∀ (rows : List PRow) (t : List QRow), processMacro rows = .ok t →
      ∀ o ∈ t, ∀ x y, o.hourlyEarnings = some x → o.hoursWorked = some y →
        o.weeklyEarnings = some (round2q (x * y))) ∧
    (∀ (j : Payload) (t : CTable), parseJson j = .ok t →
      ∀ r ∈ t.rows, r.weeklyIncome =
        (omul r.hourlyEarnings r.hoursWorked).map round0q) := by
  constructor
  · intro rows t h o ho x y hx hy
    obtain ⟨lastRow, hl, rfl⟩ := processMacro_ok h
    rcases List.mem_map.mp ho with ⟨r, hr, rfl⟩
    have hx2 : r.hourlyEarnings = some x := hx
    have hy2 : r.hoursWorked = some y := hy
    show (omul r.hourlyEarnings r.hoursWorked).map round2q = some (round2q (x * y))
    rw [hx2, hy2]
    rfl
  · intro j t h r hr
    obtain ⟨rs, hshape⟩ := parseJson_rows_shape h
    obtain ⟨cols, d, rfl⟩ := hshape r hr
    exact mkCRow_weeklyIncome rs cols d

/-- Witness for C5 on a one-row frame with Hourly Earnings 10 and Hours
Worked 4. -/
theorem C5_weekly_earnings_rounding_witness :
    (⟨202401, some 10, some 4, some 2, some 40, some 40⟩ : QRow).weeklyEarnings =
      some (round2q (10 * 4)) :=
  C5_weekly_earnings_rounding.1 [⟨202401, some 10, some 4, some 2⟩]
    [⟨202401, some 10, some 4, some 2, some 40, some 40⟩] (by decide)
    ⟨202401, some 10, some 4, some 2, some 40, some 40⟩ (by decide) 10 4 rfl rfl


/-- Counterexample to C5 as stated: at the cited collect_data.py derivation,
the derived weekly column of the row with Hourly Earnings 10.5 and Hours
Worked 30.5 is 320 (rounded to zero decimals), not the 2-decimal rounding
320.25 = 1281/4 the claim prescribes. -/
theorem C5_counterexample :
    (parseJson pC5).map (fun t => t.rows.map (fun r =>
        (r.hourlyEarnings, r.hoursWorked, r.weeklyIncome))) =
      .ok [(some (21 / 2), some (61 / 2), some 320)] ∧
    round2q ((21 / 2 : ℚ) * (61 / 2)) = 1281 / 4 ∧
    (320 : ℚ) ≠ 1281 / 4 :=
  ⟨by decide, by decide, by decide⟩

/-! ### Claim C6 -/

theorem sorted_date_le_of_getLast {l : List PRow}
    (h : List.Sorted (fun a b : PRow => a.date ≤ b.date) l) :
    ∀ x ∈ l, ∀ y, l.getLast? = some y → x.date ≤ y.date := by
  induction l with
  | nil => intro x hx; cases hx
  | cons a rest ih =>
    intro x hx y hy
    cases rest with
    | nil =>
      obtain rfl := List.mem_singleton.mp hx
      rw [List.getLast?_singleton] at hy
      injection hy with hxy
      rw [hxy]
    | cons b rest2 =>
      rw [List.getLast?_cons_cons] at hy
      rcases List.mem_cons.mp hx with rfl | hx2
      · exact (List.sorted_cons.mp h).1 y (List.mem_of_getLast?_eq_some hy)
      · exact ih (List.sorted_cons.mp h).2 x hx2 y hy

/-- C6 (amended): for every processed frame with numeric nonzero CPI values,
each row's Real Weekly Earnings equals the unrounded Hourly-times-Hours
product divided by its own CPI and multiplied by the CPI of the last (hence
maximum-date) row, rounded to 2 decimals; Real equals Weekly whenever the
row's CPI equals the last row's CPI - in particular at the last row itself,
whose date is the table's maximum - but that CPI coincidence, not the date,
is what governs the equality. -/
theorem C6_real_weekly_earnings (rows : List PRow) (t : List QRow)
    (h : processMacro rows = .ok t)
    (hcpi : ∀ r ∈ rows, ∃ c, r.cpi = some c ∧ c ≠ 0) :
    (∀ o ∈ t, o.realWeeklyEarnings =
      (omul (odiv (omul o.hourlyEarnings o.hoursWorked) o.cpi)
        (t.getLast?.bind (fun q => q.cpi))).map round2q) ∧
    (∀ o ∈ t, o.cpi = t.getLast?.bind (fun q => q.cpi) →
      o.realWeeklyEarnings = o.weeklyEarnings) ∧
    (∀ lo, t.getLast? = some lo →
      lo.realWeeklyEarnings = lo.weeklyEarnings ∧ ∀ o ∈ t, o.date ≤ lo.date) := by
  obtain ⟨lastRow, hl, rfl⟩ := processMacro_ok h
  have hlastmem : lastRow ∈ rows :=
    (List.perm_insertionSort _ rows).subset (List.mem_of_getLast?_eq_some hl)
  have hgl : ((sortRows rows).map (processRow lastRow)).getLast? =
      some (processRow lastRow lastRow) := by
    rw [List.getLast?_map, hl]
    rfl
  have hbind : (((sortRows rows).map (processRow lastRow)).getLast?.bind
      (fun q => q.cpi)) = lastRow.cpi := by
    rw [hgl]
    rfl
  have hform : ∀ o ∈ (sortRows rows).map (processRow lastRow), o.realWeeklyEarnings =
      (omul (odiv (omul o.hourlyEarnings o.hoursWorked) o.cpi) lastRow.cpi).map
        round2q := by
    intro o ho
    rcases List.mem_map.mp ho with ⟨r, hr, rfl⟩
    rfl
  have hrw : ∀ o ∈ (sortRows rows).map (processRow lastRow), o.cpi = lastRow.cpi →
      o.realWeeklyEarnings = o.weeklyEarnings := by
    intro o ho heq
    rcases List.mem_map.mp ho with ⟨r, hr, rfl⟩
    have hrcpi : r.cpi = lastRow.cpi := heq
    obtain ⟨c, hc, hcne⟩ := hcpi lastRow hlastmem
    show (omul (odiv (omul r.hourlyEarnings r.hoursWorked) r.cpi) lastRow.cpi).map round2q
        = (omul r.hourlyEarnings r.hoursWorked).map round2q
    cases hw : omul r.hourlyEarnings r.hoursWorked with
    | none =>
      rw [odiv_none_left, omul_none_left]
    | some w =>
      rw [hrcpi, hc]
      show some (round2q (w / c * c)) = some (round2q w)
      rw [div_mul_cancel₀ w hcne]
  rw [hbind]
  refine ⟨hform, hrw, ?_⟩
  intro lo hlo
  rw [hgl] at hlo
  obtain rfl := (Option.some.inj hlo).symm
  constructor
  · refine hrw _ (List.mem_map_of_mem _ (List.mem_of_getLast?_eq_some hl)) ?_
    rfl
  · intro o ho
    rcases List.mem_map.mp ho with ⟨r, hr, rfl⟩
    show r.date ≤ lastRow.date
    haveI : IsTotal PRow (fun a b => a.date ≤ b.date) :=
      ⟨fun a b => Nat.le_total a.date b.date⟩
    haveI : IsTrans PRow (fun a b => a.date ≤ b.date) :=
      ⟨fun _ _ _ hab hbc => Nat.le_trans hab hbc⟩
    exact sorted_date_le_of_getLast (List.sorted_insertionSort _ rows) r hr lastRow hl


/-- Counterexample to C6 as stated.  First, on `rows6a` the non-maximum-date
row 2024-01 has Real Weekly Earnings equal to Weekly Earnings (both 40,
because its CPI equals the latest CPI), so the claimed "exactly when the
row's date is the table's maximum date" fails.  Second, on `rows6b` the first
row's Real Weekly Earnings is 2.01, computed from the unrounded product
1.0035, while the claim's formula applied to the rounded Weekly Earnings
column (1.00) gives 2.00. -/
theorem C6_counterexample :
    ((processMacro rows6a).map (fun t => t.map (fun o =>
        (o.date, o.weeklyEarnings, o.realWeeklyEarnings))) =
      .ok [(202401, some 40, some 40), (202402, some 1, some 1)]) ∧
    (202401 : Nat) ≠ 202402 ∧
    ((processMacro rows6b).map (fun t => t.map (fun o =>
        (o.date, o.weeklyEarnings, o.realWeeklyEarnings))) =
      .ok [(202401, some 1, some (201 / 100)), (202402, some 1, some 1)]) ∧
    round2q ((1 : ℚ) / 1 * 2) = 2 ∧ (201 / 100 : ℚ) ≠ 2 :=
  ⟨by decide, by decide, by decide, by decide, by decide⟩

/-- Witness for C6 on `rows6a`: at the last row Real equals Weekly. -/
theorem C6_real_weekly_earnings_witness :
    (⟨202402, some 1, some 1, some 2, some 1, some 1⟩ : QRow).realWeeklyEarnings =
      (⟨202402, some 1, some 1, some 2, some 1, some 1⟩ : QRow).weeklyEarnings :=
  ((C6_real_weekly_earnings rows6a
      [⟨202401, some 10, some 4, some 2, some 40, some 40⟩,
       ⟨202402, some 1, some 1, some 2, some 1, some 1⟩] (by decide)
      (by decide)).2.1
    ⟨202402, some 1, some 1, some 2, some 1, some 1⟩ (by decide) (by decide))

end BLS
